import Mathlib

/-!
# Verification of `tg-back` (`src/app.py`)

A shallow embedding of the Flask + aiogram backend in `src/app.py`:

* the `initData` signature verifier `verify_initdata` (lines 74–91),
  including a faithful model of Python's `urllib.parse.parse_qsl` with its
  default parameters (split on `&`, skip empty segments, skip segments
  without `=` or with an empty value, `+` → space, percent-decoding);
* the SQLite access ledger (`grant_access`, lines 63–72, and the read in
  `api_has`, lines 101–105), modelled as an association list
  `user_id ↦ until_ts` with upsert semantics matching
  `INSERT … ON CONFLICT(user_id) DO UPDATE`;
* the HTTP handlers `api_has` (lines 94–105) and `api_buy` (lines 107–152);
* the payment handler `on_success` (lines 163–171).

The HMAC-SHA256 computation
`hmac.new(sha256(BOT_TOKEN).digest(), payload, sha256).hexdigest()` is an
external crypto primitive (Python `hashlib`/`hmac` applied to the configured
`BOT_TOKEN`); it is abstracted as an opaque parameter
`hmacHex : String → String` mapping the canonical payload string to the
lowercase-hex digest.  Every theorem about the verifier is stated for an
arbitrary such function.

Machine integers do not overflow here (Python ints are unbounded), so user
ids, timestamps and amounts are `Int`.  Percent-decoding follows CPython
byte for byte: `%XX` escapes and literal ASCII characters accumulate into
byte runs that are UTF-8-decoded with `errors='replace'` (one `U+FFFD`
per maximal ill-formed subpart), literal non-ASCII characters passing
through between runs.  `hmac.compare_digest` at line 85 sits outside both
`try` blocks and raises an uncaught `TypeError` on a non-ASCII argument,
which Flask surfaces as HTTP 500; the verifier model therefore
distinguishes a returned `None` from a raised exception.
-/

namespace TgBack

/-- Python `s.split(sep)` for a single-character separator:
the result always has one more part than there are separators, so leading,
trailing and doubled separators produce empty parts. -/
def splitOnChar (sep : Char) : List Char → List (List Char)
  | [] => [[]]
  | c :: rest =>
    match splitOnChar sep rest with
    | [] => if c = sep then [[], []] else [[c]]
    | g :: gs => if c = sep then [] :: g :: gs else (c :: g) :: gs

/-- Python `name_value.split('=', 1)`: split at the first `=`; `none` when the
segment contains no `=`. -/
def splitFirstEq : List Char → Option (List Char × List Char)
  | [] => none
  | c :: rest =>
    if c = '=' then some ([], rest)
    else (splitFirstEq rest).map (fun p => (c :: p.1, p.2))

/-- Value of an ASCII hex digit, `none` for any other character. -/
def hexVal (c : Char) : Option Nat :=
  if '0' ≤ c ∧ c ≤ '9' then some (c.toNat - '0'.toNat)
  else if 'a' ≤ c ∧ c ≤ 'f' then some (c.toNat - 'a'.toNat + 10)
  else if 'A' ≤ c ∧ c ≤ 'F' then some (c.toNat - 'A'.toNat + 10)
  else none

/-- Check for a UTF-8 continuation byte, `0x80`–`0xBF`. -/
def isCont (b : Nat) : Bool :=
  128 ≤ b && b ≤ 191

/-- The Unicode replacement character `U+FFFD` emitted by
`errors='replace'`. -/
def replacementChar : Char :=
  Char.ofNat 0xFFFD

/-- CPython `bytes.decode('utf-8', 'replace')`: decode well-formed UTF-8
sequences (with the restricted second-byte ranges that exclude overlong
forms, surrogates and code points above `U+10FFFF`), and replace each
maximal subpart of an ill-formed subsequence by a single `U+FFFD` —
a truncated or broken sequence consumes its valid prefix for one
replacement and decoding resumes at the offending byte. -/
def utf8DecodeReplaceF : Nat → List Nat → List Char
  | _, [] => []
  | 0, _ => []
  | Nat.succ fuel, b :: rest =>
    if b < 128 then Char.ofNat b :: utf8DecodeReplaceF fuel rest
    else if 194 ≤ b && b ≤ 223 then
      match rest with
      | [] => [replacementChar]
      | b2 :: rest2 =>
        if isCont b2 then
          Char.ofNat ((b - 192) * 64 + (b2 - 128)) :: utf8DecodeReplaceF fuel rest2
        else replacementChar :: utf8DecodeReplaceF fuel rest
    else if 224 ≤ b && b ≤ 239 then
      match rest with
      | [] => [replacementChar]
      | b2 :: rest2 =>
        if (if b = 224 then 160 ≤ b2 && b2 ≤ 191
            else if b = 237 then 128 ≤ b2 && b2 ≤ 159
            else isCont b2) then
          match rest2 with
          | [] => [replacementChar]
          | b3 :: rest3 =>
            if isCont b3 then
              Char.ofNat ((b - 224) * 4096 + (b2 - 128) * 64 + (b3 - 128))
                :: utf8DecodeReplaceF fuel rest3
            else replacementChar :: utf8DecodeReplaceF fuel rest2
        else replacementChar :: utf8DecodeReplaceF fuel rest
    else if 240 ≤ b && b ≤ 244 then
      match rest with
      | [] => [replacementChar]
      | b2 :: rest2 =>
        if (if b = 240 then 144 ≤ b2 && b2 ≤ 191
            else if b = 244 then 128 ≤ b2 && b2 ≤ 143
            else isCont b2) then
          match rest2 with
          | [] => [replacementChar]
          | b3 :: rest3 =>
            if isCont b3 then
              match rest3 with
              | [] => [replacementChar]
              | b4 :: rest4 =>
                if isCont b4 then
                  Char.ofNat ((b - 240) * 262144 + (b2 - 128) * 4096
                      + (b3 - 128) * 64 + (b4 - 128))
                    :: utf8DecodeReplaceF fuel rest4
                else replacementChar :: utf8DecodeReplaceF fuel rest3
            else replacementChar :: utf8DecodeReplaceF fuel rest2
        else replacementChar :: utf8DecodeReplaceF fuel rest
    else replacementChar :: utf8DecodeReplaceF fuel rest

/-- UTF-8 decoding with replacement; the fuel is the byte count, which
every recursive call stays below (each step consumes at least one byte). -/
def utf8DecodeReplace (bs : List Nat) : List Char :=
  utf8DecodeReplaceF bs.length bs

/-- Model of `urllib.parse.unquote` (defaults `encoding='utf-8'`,
`errors='replace'`): scanning left to right, `%XX` escapes and literal
ASCII characters accumulate as bytes; a `%` not followed by two hex digits
contributes a literal `0x25` byte; a literal non-ASCII character flushes
the pending byte run through the UTF-8 decoder and passes through
unchanged (as in CPython, where only maximal ASCII runs are
percent-decoded and decoded); the final byte run is flushed at the end. -/
def unquoteF : Nat → List Char → List Nat → List Char
  | _, [], buf => utf8DecodeReplace buf
  | 0, cs, buf => utf8DecodeReplace buf ++ cs
  | Nat.succ fuel, c :: rest, buf =>
    if c = '%' then
      match rest with
      | a :: b :: rest2 =>
        match hexVal a, hexVal b with
        | some x, some y => unquoteF fuel rest2 (buf ++ [16 * x + y])
        | _, _ => unquoteF fuel rest (buf ++ [37])
      | _ => unquoteF fuel rest (buf ++ [37])
    else if c.toNat < 128 then
      unquoteF fuel rest (buf ++ [c.toNat])
    else
      utf8DecodeReplace buf ++ c :: unquoteF fuel rest []

/-- The function `urllib.parse.unquote` proper: the fuel of `unquoteF` is the input
length, which every recursive call stays below. -/
def unquote (cs : List Char) : List Char :=
  unquoteF cs.length cs []

/-- Python `.replace('+', ' ')`, applied by `parse_qsl` before `unquote`. -/
def plusToSpace (cs : List Char) : List Char :=
  cs.map (fun c => if c = '+' then ' ' else c)

/-- Model of `urllib.parse.parse_qsl(data)` with its default parameters: split the
query string on `&`; skip empty segments, segments without `=`, and
segments whose value is empty (`keep_blank_values=False`); decode `+` and
percent-escapes in both name and value. -/
def parseQslList (cs : List Char) : List (String × String) :=
  (splitOnChar '&' cs).filterMap fun seg =>
    if seg = [] then none
    else
      match splitFirstEq seg with
      | none => none
      | some (n, v) =>
        if v = [] then none
        else some ((unquote (plusToSpace n)).asString, (unquote (plusToSpace v)).asString)

/-- The function `urllib.parse.parse_qsl(data)` on a string. -/
def parse_qsl (s : String) : List (String × String) :=
  parseQslList s.toList

/-- Insert one pair with Python `dict` semantics: a repeated key keeps its
original position and takes the new value. -/
def dictInsert (d : List (String × String)) (kv : String × String) : List (String × String) :=
  if d.any (fun p => p.1 == kv.1) then
    d.map (fun p => if p.1 == kv.1 then kv else p)
  else d ++ [kv]

/-- Python `dict(pairs)`: an association list with unique keys, later duplicates
overwriting earlier values. -/
def pyDict (pairs : List (String × String)) : List (String × String) :=
  pairs.foldl dictInsert []

/-- Python `parts.pop(k)`: the value at `k` together with the dictionary without
`k`; `none` when `k` is absent (Python raises `KeyError`, caught by the
caller). -/
def popKey (d : List (String × String)) (k : String) : Option (String × List (String × String)) :=
  match List.lookup k d with
  | none => none
  | some v => some (v, d.filter (fun p => p.1 ≠ k))

/-- Insertion into a list sorted by key (code-point order, as Python's
`sorted` on strings).  The keys come from a `dict`, hence are unique, so
comparing keys alone matches Python's tuple ordering. -/
def insertByKey (p : String × String) : List (String × String) → List (String × String)
  | [] => [p]
  | q :: rest => if p.1 < q.1 then p :: q :: rest else q :: insertByKey p rest

/-- Python `sorted(parts.items())` for a `dict` with unique keys. -/
def sortByKey (l : List (String × String)) : List (String × String) :=
  l.foldr insertByKey []

/-- The canonical string `"\n".join(f"{k}={v}" for k, v in sorted(parts.items()))`. -/
def canonicalPayload (parts : List (String × String)) : String :=
  String.intercalate "\n" ((sortByKey parts).map (fun kv => kv.1 ++ "=" ++ kv.2))

/-- Python `int(s)` on a string: strip ASCII whitespace, optional sign, then a
nonempty run of decimal digits; `none` when Python's `int()` raises. -/
def pyDigits : List Char → Option Nat
  | [] => none
  | cs =>
    cs.foldl
      (fun acc c =>
        acc.bind (fun n => if c.isDigit then some (n * 10 + (c.toNat - '0'.toNat)) else none))
      (some 0)

/-- ASCII whitespace stripped by Python's `int()`. -/
def isPySpace (c : Char) : Bool :=
  c = ' ' ∨ c = '\t' ∨ c = '\n' ∨ c = '\x0d' ∨ c = '\x0b' ∨ c = '\x0c'

/-- Python `int(s)` for a decimal string, as `Option Int`. -/
def pyInt? (s : String) : Option Int :=
  let cs := ((s.toList.dropWhile isPySpace).reverse.dropWhile isPySpace).reverse
  match cs with
  | '+' :: rest => (pyDigits rest).map Int.ofNat
  | '-' :: rest => (pyDigits rest).map (fun n => -(Int.ofNat n : Int))
  | _ => (pyDigits cs).map Int.ofNat

/-- Python `str.isascii()`: every character below `U+0080`.
`hmac.compare_digest` demands it of both `str` arguments. -/
def isAsciiStr (s : String) : Bool :=
  s.data.all (fun c => c.toNat < 128)

/-- Outcome of `verify_initdata`: a returned `int`, a returned `None`, or
an uncaught exception propagating out of the function (Flask then answers
HTTP 500). -/
inductive VerifyResult where
  | ok (uid : Int)
  | reject
  | raised
deriving DecidableEq

/-- The verifier `verify_initdata(data)` (`src/app.py` lines 74–91): parse the query
string, pop the `hash` field (`None` if absent), rebuild the canonical
payload from the remaining fields sorted by key and joined as `k=v` lines,
compare the asserted hash with the HMAC hex digest, and on success return
`int(parts["user[id]"])`; `None` on any failure inside the two `try`
blocks.  The comparison `hmac.compare_digest(calc_hash, passed_hash)` at
line 85 sits outside both `try` blocks and raises an uncaught `TypeError`
when either `str` argument is not ASCII-only (`calc_hash`, a hex digest,
always is; `passed_hash` need not be).  `hmacHex` stands for
`payload ↦ hmac.new(sha256(BOT_TOKEN).digest(), payload, sha256).hexdigest()`. -/
def verify_initdata (hmacHex : String → String) (data : String) : VerifyResult :=
  match popKey (pyDict (parse_qsl data)) "hash" with
  | none => .reject
  | some (passed_hash, parts) =>
    let payload := canonicalPayload parts
    let calc_hash := hmacHex payload
    if isAsciiStr calc_hash && isAsciiStr passed_hash then
      if calc_hash = passed_hash then
        match List.lookup "user[id]" parts with
        | some v =>
          match pyInt? v with
          | some uid => .ok uid
          | none => .reject
        | none => .reject
      else .reject
    else .raised

/-! ## Access ledger (SQLite `access` table) -/

/-- The `access` table: rows `(user_id, until_ts)` with `user_id` the
primary key, modelled as an association list. -/
abbrev AccessDb := List (Int × Int)

/-- The upsert `INSERT INTO access VALUES (u, t) ON CONFLICT(user_id) DO UPDATE SET
until_ts = excluded.until_ts`: replace the row with this key if present,
otherwise insert a new row. -/
def upsertAccess : AccessDb → Int → Int → AccessDb
  | [], u, t => [(u, t)]
  | r :: rest, u, t => if r.1 == u then (u, t) :: rest else r :: upsertAccess rest u t

/-- The writer `grant_access(user_id, days)` (`src/app.py` lines 63–72):
`until_ts = int(time.time()) + days * 86400`, upserted into `access`.
`now` is the `int(time.time())` observed at call time. -/
def grant_access (db : AccessDb) (now user_id days : Int) : AccessDb :=
  upsertAccess db user_id (now + days * 86400)

/-- The read `SELECT until_ts FROM access WHERE user_id=? … fetchone()`. -/
def selectUntil (db : AccessDb) (user_id : Int) : Option Int :=
  (db.find? (fun r => r.1 == user_id)).map (fun r => r.2)

/-- The ledger read in `api_has` (`src/app.py` lines 101–105):
`has_access = bool(row and row[0] > now_ts)` and
`until = row[0] if row else 0`. -/
def ledger_query (db : AccessDb) (now_ts user_id : Int) : Bool × Int :=
  match selectUntil db user_id with
  | some until_ts => (decide (until_ts > now_ts), until_ts)
  | none => (false, 0)

/-! ## Flask handlers -/

/-- Outcome of `GET /api/has`: `(jsonify(ok=False), 403)`,
`jsonify(ok=True, has=…, until=…)`, or an uncaught exception that Flask
converts into an HTTP 500 answer. -/
inductive ApiHasResult where
  | unauthorized
  | granted (has : Bool) (untilTs : Int)
  | serverError
deriving DecidableEq

/-- The handler `api_has()` (`src/app.py` lines 94–105).  `if not uid:` is true in
Python both when `verify_initdata` returned `None` and when it returned
the integer `0`; an exception escaping `verify_initdata` escapes the
handler too. -/
def api_has (hmacHex : String → String) (db : AccessDb) (now_ts : Int)
    (initData : String) : ApiHasResult :=
  match verify_initdata hmacHex initData with
  | .raised => .serverError
  | .reject => .unauthorized
  | .ok uid =>
    if uid = 0 then .unauthorized
    else
      let q := ledger_query db now_ts uid
      .granted q.1 q.2

/-- The invoice request built by `api_buy` and posted to
`createInvoiceLink` (constant fields such as `photo_url` omitted; the
single `prices` entry is flattened to `label`/`amount`). -/
structure InvoiceReq where
  chat_id : Int
  title : String
  description : String
  payload : String
  currency : String
  label : String
  amount : Int
deriving DecidableEq

/-- Outcome of `POST /buy` up to the external transport call:
`(jsonify(ok=False, error="bad args"), 400)`, or a request submitted to
the Telegram Bot API (whose eventual HTTP answer depends only on the
external response). -/
inductive ApiBuyResult where
  | badRequest
  | submit (req : InvoiceReq)
deriving DecidableEq

/-- The handler `api_buy()` (`src/app.py` lines 107–152) up to the transport call.
`user_id` is absent-or-integer (`data.get("user_id")`); `days?` is the
optional `days` field, defaulted by `int(data.get("days", 1))`.
`if not chat_id` is true in Python when `user_id` is absent or `0`. -/
def api_buy (user_id : Option Int) (days? : Option Int) : ApiBuyResult :=
  let days := days?.getD 1
  match user_id with
  | none => .badRequest
  | some chat_id =>
    if chat_id == 0 || !(days == 1 || days == 30) then .badRequest
    else
      let amount : Int := if days = 1 then 10000 else 29300
      let payload := "premium_" ++ toString days ++ "d"
      .submit
        { chat_id := chat_id
          title := "Доступ к отчёту"
          description := toString days ++ " дн. доступа"
          payload := payload
          currency := "RUB"
          label := toString days ++ " дн."
          amount := amount }

/-- The submitted invoice amount, when `api_buy` reached the transport. -/
def submittedAmount : ApiBuyResult → Option Int
  | .badRequest => none
  | .submit req => some req.amount

/-! ## Payment handler (aiogram) -/

/-- Python `s.endswith(suffix)`. -/
def strEndsWith (s suffix : String) : Bool :=
  suffix.data.isSuffixOf s.data

/-- Persistent state touched by the payment handler: the `access` table
and the append-only `charges` table. -/
structure BotState where
  access : AccessDb
  charges : List (Int × String)
deriving DecidableEq

/-- The handler `on_success(msg)` (`src/app.py` lines 163–171):
`days = 1 if msg.successful_payment.invoice_payload.endswith("1d") else 30`,
then `grant_access(msg.from_user.id, days)` and one `charges` insert.
The second component is the trace of `grant_access` calls made, as
`(user_id, days)` pairs. -/
def on_success (st : BotState) (now from_user_id : Int) (invoice_payload : String)
    (charge_id : String) : BotState × List (Int × Int) :=
  let days : Int := if strEndsWith invoice_payload "1d" then 1 else 30
  ({ access := grant_access st.access now from_user_id days
     charges := st.charges ++ [(from_user_id, charge_id)] },
   [(from_user_id, days)])

/-- Number of ledger rows for a given user (the `user_id PRIMARY KEY`
schema constraint is `countUser db u ≤ 1` for every `u`). -/
def countUser (db : AccessDb) (u : Int) : Nat :=
  (db.filter (fun r => r.1 == u)).length

/-! ## Ledger lemmas -/

theorem selectUntil_upsertAccess (db : AccessDb) (u t : Int) :
    selectUntil (upsertAccess db u t) u = some t := by
  induction db with
  | nil => simp [upsertAccess, selectUntil, List.find?]
  | cons r rest ih =>
    by_cases hr : (r.1 == u) = true
    · simp [upsertAccess, hr, selectUntil, List.find?]
    · simp only [upsertAccess, hr, Bool.false_eq_true, if_false]
      simpa [selectUntil, List.find?, hr] using ih

theorem countUser_upsertAccess_le (db : AccessDb) (u t : Int)
    (h : countUser db u ≤ 1) : countUser (upsertAccess db u t) u ≤ 1 := by
  induction db with
  | nil => simp [upsertAccess, countUser]
  | cons r rest ih =>
    by_cases hr : (r.1 == u) = true
    · simp only [countUser, List.filter, hr] at h
      simp only [upsertAccess, hr, if_true, countUser, List.filter, beq_self_eq_true]
      simpa using h
    · simp only [countUser, List.filter, hr] at h
      simp only [upsertAccess, hr, Bool.false_eq_true, if_false, countUser, List.filter]
      exact ih h

/-! ## Query-string parsing lemmas -/

theorem splitOnChar_ne_nil (sep : Char) (cs : List Char) :
    splitOnChar sep cs ≠ [] := by
  cases cs with
  | nil => simp [splitOnChar]
  | cons c rest =>
    simp only [splitOnChar]
    split <;> split <;> simp

theorem splitOnChar_of_not_mem (sep : Char) (xs : List Char) (h : sep ∉ xs) :
    splitOnChar sep xs = [xs] := by
  induction xs with
  | nil => rfl
  | cons c rest ih =>
    have hc : ¬ c = sep := fun e => h (by simp [e])
    have hr : sep ∉ rest := fun m => h (by simp [m])
    simp [splitOnChar, ih hr, hc]

theorem splitOnChar_append_sep (sep : Char) (xs ys : List Char) (h : sep ∉ xs) :
    splitOnChar sep (xs ++ sep :: ys) = xs :: splitOnChar sep ys := by
  induction xs with
  | nil =>
    simp only [List.nil_append, splitOnChar]
    cases hy : splitOnChar sep ys with
    | nil => exact absurd hy (splitOnChar_ne_nil sep ys)
    | cons g gs => simp
  | cons c rest ih =>
    have hc : ¬ c = sep := fun e => h (by simp [e])
    have hr : sep ∉ rest := fun m => h (by simp [m])
    show splitOnChar sep (c :: (rest ++ sep :: ys)) = (c :: rest) :: splitOnChar sep ys
    simp only [splitOnChar, ih hr]
    simp [hc]

theorem splitFirstEq_append (k v : List Char) (hk : '=' ∉ k) :
    splitFirstEq (k ++ '=' :: v) = some (k, v) := by
  induction k with
  | nil => simp [splitFirstEq]
  | cons c rest ih =>
    have hc : ¬ c = '=' := fun e => hk (by simp [e])
    have hr : '=' ∉ rest := fun m => hk (by simp [m])
    simp [splitFirstEq, hc, ih hr]

theorem plusToSpace_of_not_mem (cs : List Char) (h : '+' ∉ cs) :
    plusToSpace cs = cs := by
  induction cs with
  | nil => rfl
  | cons c rest ih =>
    have hc : ¬ c = '+' := fun e => h (by simp [e])
    have hr : '+' ∉ rest := fun m => h (by simp [m])
    simp [plusToSpace, hc]
    simpa [plusToSpace] using ih hr

theorem utf8DecodeReplaceF_ascii (fuel : Nat) (bs : List Nat)
    (hf : bs.length ≤ fuel) (h : ∀ b ∈ bs, b < 128) :
    utf8DecodeReplaceF fuel bs = bs.map Char.ofNat := by
  induction fuel generalizing bs with
  | zero =>
    cases bs with
    | nil => rfl
    | cons b rest => simp at hf
  | succ fuel ih =>
    cases bs with
    | nil => rfl
    | cons b rest =>
      have hb : b < 128 := h b (by simp)
      have hr : ∀ x ∈ rest, x < 128 := fun x m => h x (by simp [m])
      have hfr : rest.length ≤ fuel := by simp at hf; omega
      simp [utf8DecodeReplaceF, hb, ih rest hfr hr]

theorem utf8DecodeReplace_ascii (bs : List Nat) (h : ∀ b ∈ bs, b < 128) :
    utf8DecodeReplace bs = bs.map Char.ofNat :=
  utf8DecodeReplaceF_ascii bs.length bs (Nat.le_refl _) h

theorem unquoteF_of_not_mem (fuel : Nat) (cs : List Char) (buf : List Nat)
    (hf : cs.length ≤ fuel) (h : '%' ∉ cs) (hbuf : ∀ b ∈ buf, b < 128) :
    unquoteF fuel cs buf = buf.map Char.ofNat ++ cs := by
  induction fuel generalizing cs buf with
  | zero =>
    cases cs with
    | nil => simp [unquoteF, utf8DecodeReplace_ascii buf hbuf]
    | cons c rest => simp at hf
  | succ fuel ih =>
    cases cs with
    | nil => simp [unquoteF, utf8DecodeReplace_ascii buf hbuf]
    | cons c rest =>
      have hc : ¬ c = '%' := fun e => h (by simp [e])
      have hr : '%' ∉ rest := fun m => h (by simp [m])
      have hfr : rest.length ≤ fuel := by simp at hf; omega
      by_cases hA : c.toNat < 128
      · have hbuf2 : ∀ b ∈ buf ++ [c.toNat], b < 128 := by
          intro b m
          rcases List.mem_append.1 m with m | m
          · exact hbuf b m
          · simp at m; omega
        simp [unquoteF, hc, hA, ih rest (buf ++ [c.toNat]) hfr hr hbuf2,
          Char.ofNat_toNat]
      · simp [unquoteF, hc, hA, utf8DecodeReplace_ascii buf hbuf,
          ih rest [] hfr hr (by simp)]

theorem unquote_of_not_mem (cs : List Char) (h : '%' ∉ cs) : unquote cs = cs := by
  simpa [unquote] using
    unquoteF_of_not_mem cs.length cs [] (Nat.le_refl _) h (by simp)

/-- A character with no special role in the query-string pipeline: ASCII
and none of the metacharacters.  Non-ASCII characters do play a role —
they delimit the UTF-8 byte runs of `unquote`, and a non-ASCII hash value
makes `hmac.compare_digest` raise. -/
def plainChar (c : Char) : Bool :=
  c.toNat < 128 && !(c = '&' ∨ c = '=' ∨ c = '+' ∨ c = '%')

theorem not_mem_of_plain (cs : List Char) (h : cs.all plainChar = true) :
    '&' ∉ cs ∧ '=' ∉ cs ∧ '+' ∉ cs ∧ '%' ∉ cs := by
  simp only [List.all_eq_true, plainChar, Bool.and_eq_true, decide_eq_true_eq,
    Bool.not_eq_true', decide_eq_false_iff_not] at h
  push_neg at h
  exact ⟨fun m => (h _ m).2.1 rfl, fun m => (h _ m).2.2.1 rfl,
    fun m => (h _ m).2.2.2.1 rfl, fun m => (h _ m).2.2.2.2 rfl⟩

theorem ascii_of_plain (cs : List Char) (h : cs.all plainChar = true) :
    ∀ c ∈ cs, c.toNat < 128 := by
  simp only [List.all_eq_true, plainChar, Bool.and_eq_true, decide_eq_true_eq] at h
  exact fun c m => (h c m).1

theorem isAsciiStr_of_plain (s : String) (h : s.data.all plainChar = true) :
    isAsciiStr s = true := by
  simp only [isAsciiStr, List.all_eq_true, decide_eq_true_eq]
  exact ascii_of_plain s.data h

/-- Evaluation of `parse_qsl` on a two-field query string `K1=V1&K2=V2` whose raw parts
contain no stray separators: both fields survive, names and values
percent-decoded. -/
theorem parseQslList_two (K1 V1 K2 V2 : List Char)
    (hK1 : '&' ∉ K1 ∧ '=' ∉ K1) (hK2 : '&' ∉ K2 ∧ '=' ∉ K2)
    (hV1 : V1 ≠ [] ∧ '&' ∉ V1) (hV2 : V2 ≠ [] ∧ '&' ∉ V2) :
    parseQslList ((K1 ++ '=' :: V1) ++ '&' :: (K2 ++ '=' :: V2)) =
      [((unquote (plusToSpace K1)).asString, (unquote (plusToSpace V1)).asString),
       ((unquote (plusToSpace K2)).asString, (unquote (plusToSpace V2)).asString)] := by
  have hseg1 : '&' ∉ K1 ++ '=' :: V1 := by
    intro m
    rcases List.mem_append.1 m with m | m
    · exact hK1.1 m
    · rcases List.mem_cons.1 m with e | m
      · exact absurd e (by decide)
      · exact hV1.2 m
  have hseg2 : '&' ∉ K2 ++ '=' :: V2 := by
    intro m
    rcases List.mem_append.1 m with m | m
    · exact hK2.1 m
    · rcases List.mem_cons.1 m with e | m
      · exact absurd e (by decide)
      · exact hV2.2 m
  have h1 : ¬ (K1 ++ '=' :: V1) = [] := by simp
  have h2 : ¬ (K2 ++ '=' :: V2) = [] := by simp
  unfold parseQslList
  rw [splitOnChar_append_sep '&' _ _ hseg1, splitOnChar_of_not_mem '&' _ hseg2]
  simp only [List.filterMap_cons, List.filterMap_nil, h1, h2, if_false,
    splitFirstEq_append _ _ hK1.2, splitFirstEq_append _ _ hK2.2,
    hV1.1, hV2.1]

/-! ## Claim theorems -/

/-- C1 counterexample: a payload whose decoded `hash` field is the
non-ASCII string `ü` (raw form `hash=%C3%BC`) and differs from the HMAC
digest does not get a rejection — `hmac.compare_digest` raises an
uncaught `TypeError` (HTTP 500), refuting "for any payload whose hash
field does not equal that HMAC, verify returns rejection". -/
theorem C1_counterexample :
    popKey (pyDict (parse_qsl "user[id]=42&hash=%C3%BC")) "hash"
      = some ("ü", [("user[id]", "42")]) ∧
    ("ü" : String) ≠ (fun _ => "deadbeef" : String → String)
      (canonicalPayload [("user[id]", "42")]) ∧
    verify_initdata (fun _ => "deadbeef") "user[id]=42&hash=%C3%BC"
      = VerifyResult.raised ∧
    verify_initdata (fun _ => "deadbeef") "user[id]=42&hash=%C3%BC"
      ≠ VerifyResult.reject := by
  decide

/-- C1 (amended): the verifier answers from the asserted `hash` field.
For any payload whose parsed fields carry a `hash` entry, with the HMAC
hex digest of the canonical string (fields without `hash`, sorted by key,
joined as `key=value` lines by single newlines, no trailing newline)
ASCII-only as a hex digest always is: if the asserted hash equals that
digest and the fields embed a numeric `user[id]`, `verify_initdata`
returns that user id; if the asserted hash is ASCII and differs from the
digest, `verify_initdata` returns the `None` rejection; if the asserted
hash is not ASCII, `hmac.compare_digest` raises an uncaught `TypeError`
instead of rejecting. -/
theorem C1_verify_outcomes (hmacHex : String → String)
    (data passed_hash : String) (parts : List (String × String)) (v : String)
    (uid : Int)
    (hpop : popKey (pyDict (parse_qsl data)) "hash" = some (passed_hash, parts))
    (hcalc : isAsciiStr (hmacHex (canonicalPayload parts)) = true) :
    (passed_hash = hmacHex (canonicalPayload parts) →
      List.lookup "user[id]" parts = some v →
      pyInt? v = some uid →
      verify_initdata hmacHex data = VerifyResult.ok uid) ∧
    (isAsciiStr passed_hash = true →
      passed_hash ≠ hmacHex (canonicalPayload parts) →
      verify_initdata hmacHex data = VerifyResult.reject) ∧
    (isAsciiStr passed_hash = false →
      verify_initdata hmacHex data = VerifyResult.raised) := by
  unfold verify_initdata
  rw [hpop]
  simp only []
  refine ⟨fun h1 h2 h3 => ?_, fun hA hne => ?_, fun hA => ?_⟩
  · rw [← h1] at hcalc
    rw [← h1]
    simp [hcalc, h2, h3]
  · have hne' : ¬ hmacHex (canonicalPayload parts) = passed_hash :=
      fun e => hne e.symm
    simp [hcalc, hA, hne']
  · simp [hA]

/-- Witness for `C1_verify_outcomes`: all three outcomes at concrete
payloads — correctly signed, wrong ASCII hash, and non-ASCII hash. -/
theorem C1_verify_outcomes_witness :
    verify_initdata (fun _ => "deadbeef") "user[id]=42&hash=deadbeef"
      = VerifyResult.ok 42 ∧
    verify_initdata (fun _ => "deadbeef") "user[id]=42&hash=beefdead"
      = VerifyResult.reject ∧
    verify_initdata (fun _ => "deadbeef") "user[id]=42&hash=%C3%BC"
      = VerifyResult.raised :=
  ⟨(C1_verify_outcomes (fun _ => "deadbeef") "user[id]=42&hash=deadbeef"
      "deadbeef" [("user[id]", "42")] "42" 42 (by decide) (by decide)).1
      (by decide) (by decide) (by decide),
   (C1_verify_outcomes (fun _ => "deadbeef") "user[id]=42&hash=beefdead"
      "beefdead" [("user[id]", "42")] "42" 42 (by decide) (by decide)).2.1
      (by decide) (by decide),
   (C1_verify_outcomes (fun _ => "deadbeef") "user[id]=42&hash=%C3%BC"
      "ü" [("user[id]", "42")] "42" 42 (by decide) (by decide)).2.2
      (by decide)⟩

/-- C2 counterexample: with `days = 1` the submitted invoice amount is
`10000` minor units, not the `29900` the claim states (and with
`days = 30` it is `29300`, not `150000`). -/
theorem C2_counterexample :
    submittedAmount (api_buy (some 1) (some 1)) = some 10000 ∧
    submittedAmount (api_buy (some 1) (some 1)) ≠ some 29900 ∧
    submittedAmount (api_buy (some 1) (some 30)) = some 29300 ∧
    submittedAmount (api_buy (some 1) (some 30)) ≠ some 150000 := by
  decide

/-- C2 (amended): for every `InitiatePurchase` request that passes
validation (`user_id` present and nonzero), `days = 1` submits an invoice
of `10000` minor currency units and `days = 30` submits `29300`, taken
from the static conditional in `api_buy`. -/
theorem C2_static_price_table (c : Int) (hc : c ≠ 0) :
    submittedAmount (api_buy (some c) (some 1)) = some 10000 ∧
    submittedAmount (api_buy (some c) (some 30)) = some 29300 := by
  have hc' : (c == 0) = false := by simpa using hc
  constructor <;> simp [api_buy, hc', submittedAmount]

/-- Witness for `C2_static_price_table` at `user_id = 7`. -/
theorem C2_static_price_table_witness :
    submittedAmount (api_buy (some 7) (some 1)) = some 10000 ∧
    submittedAmount (api_buy (some 7) (some 30)) = some 29300 :=
  C2_static_price_table 7 (by decide)

/-- C3 counterexample: with `days = 0` (an integer `days` value the claim
quantifies over), `grant` followed by an immediate `query` yields
`has_access = false`, because access requires `until_ts > now` strictly;
the claim asserts `(true, now + d*86400)` for every `d`. -/
theorem C3_counterexample :
    ledger_query (grant_access [] 1000 5 0) 1000 5 = (false, 1000 + 0 * 86400) ∧
    ledger_query (grant_access [] 1000 5 0) 1000 5 ≠ (true, 1000 + 0 * 86400) := by
  decide

/-- C3 (amended): for every user `u` and every positive days value `d`,
`grant(u, d)` followed immediately by `query(u)` (same `now`) yields
`has_access = true` and `until_ts = now + d * 86400`. -/
theorem C3_grant_then_query (db : AccessDb) (now u d : Int) (hd : 1 ≤ d) :
    ledger_query (grant_access db now u d) now u = (true, now + d * 86400) := by
  unfold ledger_query grant_access
  rw [selectUntil_upsertAccess]
  have h : now < now + d * 86400 := by nlinarith
  simp [h]

/-- Witness for `C3_grant_then_query` with `db = []`, `now = 0`, `u = 1`,
`d = 1`. -/
theorem C3_grant_then_query_witness :
    ledger_query (grant_access [] 0 1 1) 0 1 = (true, 0 + 1 * 86400) :=
  C3_grant_then_query [] 0 1 1 (by decide)

/-- C4: starting from a ledger respecting the primary-key constraint for
`u`, `grant(u, 1)` at time `t1` followed by `grant(u, 30)` at time `t2`
leaves exactly the expiry of the second call, `t2 + 30*86400` — which is
never the sum `t2 + (1+30)*86400` of the two durations — and at most one
row for `u`. -/
theorem C4_second_grant_overwrites (db : AccessDb) (t1 t2 u : Int)
    (hdb : countUser db u ≤ 1) :
    selectUntil (grant_access (grant_access db t1 u 1) t2 u 30) u
        = some (t2 + 30 * 86400) ∧
    t2 + 30 * 86400 ≠ t2 + (1 + 30) * 86400 ∧
    countUser (grant_access (grant_access db t1 u 1) t2 u 30) u ≤ 1 := by
  refine ⟨selectUntil_upsertAccess _ _ _, by omega, ?_⟩
  exact countUser_upsertAccess_le _ _ _ (countUser_upsertAccess_le _ _ _ hdb)

/-- Witness for `C4_second_grant_overwrites` on the empty ledger. -/
theorem C4_second_grant_overwrites_witness :
    selectUntil (grant_access (grant_access [] 10 3 1) 20 3 30) 3
        = some (20 + 30 * 86400) ∧
    (20 : Int) + 30 * 86400 ≠ 20 + (1 + 30) * 86400 ∧
    countUser (grant_access (grant_access [] 10 3 1) 20 3 30) 3 ≤ 1 :=
  C4_second_grant_overwrites [] 10 20 3 (by decide)

/-- C5: `query(u)` reports `has_access = true` iff a row for `u` exists
with `until_ts` strictly greater than the current time, and reports
`(false, 0)` when no row exists. -/
theorem C5_query_semantics (db : AccessDb) (now u : Int) :
    ((ledger_query db now u).1 = true ↔ ∃ t, selectUntil db u = some t ∧ now < t) ∧
    (selectUntil db u = none → ledger_query db now u = (false, 0)) := by
  unfold ledger_query
  cases h : selectUntil db u with
  | none => simp
  | some t => simp [gt_iff_lt]

/-- Witness for `C5_query_semantics`: the no-row case on the empty ledger
and the strict-inequality case on a one-row ledger. -/
theorem C5_query_semantics_witness :
    ledger_query ([] : AccessDb) 0 1 = (false, 0) ∧
    (ledger_query [((1 : Int), (5 : Int))] 3 1).1 = true :=
  ⟨(C5_query_semantics [] 0 1).2 (by decide),
   (C5_query_semantics [((1 : Int), (5 : Int))] 3 1).1.mpr ⟨5, by decide, by decide⟩⟩

/-- C6: an `InitiatePurchase` request whose `days` is outside the
allow-list `{1, 30}` is answered with bad-request and no invoice request
is ever submitted to the transport. -/
theorem C6_invalid_days_rejected (user_id : Option Int) (days : Int)
    (h : days ≠ 1 ∧ days ≠ 30) :
    api_buy user_id (some days) = ApiBuyResult.badRequest := by
  have e1 : (days == 1) = false := by simpa using h.1
  have e30 : (days == 30) = false := by simpa using h.2
  cases user_id with
  | none => rfl
  | some c => simp [api_buy, e1, e30]

/-- Witness for `C6_invalid_days_rejected` at `days = 7`. -/
theorem C6_invalid_days_rejected_witness :
    api_buy (some 5) (some 7) = ApiBuyResult.badRequest :=
  C6_invalid_days_rejected (some 5) 7 ⟨by decide, by decide⟩

/-- C7 counterexample: a request with `user_id` present but the required
`days` field missing is not rejected — `int(data.get("days", 1))` defaults
`days` to `1` and an invoice is submitted to the transport. -/
theorem C7_counterexample :
    api_buy (some 5) none ≠ ApiBuyResult.badRequest ∧
    api_buy (some 5) none = ApiBuyResult.submit
      { chat_id := 5, title := "Доступ к отчёту", description := "1 дн. доступа",
        payload := "premium_1d", currency := "RUB", label := "1 дн.",
        amount := 10000 } := by
  decide

/-- C7 (amended): a request missing `user_id` is answered with bad-request
and no invoice is submitted; a request missing `days` is *not* rejected —
it behaves exactly as if `days = 1` had been sent. -/
theorem C7_missing_fields (days? : Option Int) (c : Int) :
    api_buy none days? = ApiBuyResult.badRequest ∧
    api_buy (some c) none = api_buy (some c) (some 1) :=
  ⟨rfl, rfl⟩

/-- Core of C8: `verify_initdata` on a two-field payload `K=s&hash=h`
whose raw key `K` decodes to `user[id]`, whose value and hash are plain
(ASCII, no query-string metacharacters), and whose hash is the digest of
the decoded canonical string `user[id]=s`. -/
theorem verify_initdata_two_field (hmacHex : String → String) (data : String)
    (K : List Char) (s h : String) (uid : Int)
    (hdata : data.data = (K ++ '=' :: s.data) ++ '&' :: ("hash".data ++ '=' :: h.data))
    (hKa : '&' ∉ K) (hKe : '=' ∉ K)
    (hKname : (unquote (plusToSpace K)).asString = "user[id]")
    (hsp : s.data.all plainChar = true) (hsne : s.data ≠ [])
    (hhp : h.data.all plainChar = true) (hhne : h.data ≠ [])
    (hnum : pyInt? s = some uid)
    (hsig : hmacHex ("user[id]=" ++ s) = h) :
    verify_initdata hmacHex data = VerifyResult.ok uid := by
  obtain ⟨hs1, hs2, hs3, hs4⟩ := not_mem_of_plain _ hsp
  obtain ⟨hh1, hh2, hh3, hh4⟩ := not_mem_of_plain _ hhp
  have hparse : parse_qsl data = [("user[id]", s), ("hash", h)] := by
    unfold parse_qsl
    simp only [String.toList]
    rw [hdata, parseQslList_two K s.data "hash".data h.data ⟨hKa, hKe⟩
      ⟨by decide, by decide⟩ ⟨hsne, hs1⟩ ⟨hhne, hh1⟩]
    rw [hKname, plusToSpace_of_not_mem _ hs3, unquote_of_not_mem _ hs4,
      plusToSpace_of_not_mem _ hh3, unquote_of_not_mem _ hh4,
      show (unquote (plusToSpace "hash".data)).asString = "hash" from by decide]
    rfl
  have hbeq1 : ("user[id]" == "hash") = false := by decide
  have hbeq2 : ("hash" == "user[id]") = false := by decide
  have hdict : pyDict [("user[id]", s), ("hash", h)]
      = [("user[id]", s), ("hash", h)] := by
    simp [pyDict, dictInsert, hbeq1]
  have hpop : popKey [("user[id]", s), ("hash", h)] "hash"
      = some (h, [("user[id]", s)]) := by
    simp [popKey, List.lookup, hbeq2]
  have hcanon : canonicalPayload [("user[id]", s)] = "user[id]=" ++ s := by
    show String.intercalate "\n" ["user[id]" ++ "=" ++ s] = "user[id]=" ++ s
    rw [show String.intercalate "\n" ["user[id]" ++ "=" ++ s]
        = "user[id]" ++ "=" ++ s from rfl,
      show ("user[id]" ++ "=") = "user[id]=" from rfl]
  have hhA : isAsciiStr h = true := isAsciiStr_of_plain h hhp
  unfold verify_initdata
  rw [hparse, hdict, hpop]
  simp only []
  rw [hcanon, hsig, hhA]
  simp [List.lookup, hnum]

/-- C8: the verifier accepts both literal key forms of the nested user-id
field — already-decoded `user[id]` and percent-encoded `user%5Bid%5D` —
and extracts the same numeric user identifier from either form of an
authentic payload (one whose hash is the digest of the decoded canonical
string). -/
theorem C8_both_user_id_key_forms (hmacHex : String → String) (s h : String)
    (uid : Int)
    (hsp : s.data.all plainChar = true) (hsne : s ≠ "")
    (hhp : h.data.all plainChar = true) (hhne : h ≠ "")
    (hnum : pyInt? s = some uid)
    (hsig : hmacHex ("user[id]=" ++ s) = h) :
    verify_initdata hmacHex ("user[id]=" ++ s ++ "&hash=" ++ h)
      = VerifyResult.ok uid ∧
    verify_initdata hmacHex ("user%5Bid%5D=" ++ s ++ "&hash=" ++ h)
      = VerifyResult.ok uid := by
  have hsne' : s.data ≠ [] := fun e => hsne (String.ext e)
  have hhne' : h.data ≠ [] := fun e => hhne (String.ext e)
  constructor
  · refine verify_initdata_two_field hmacHex _ "user[id]".data s h uid ?_
      (by decide) (by decide) (by decide) hsp hsne' hhp hhne' hnum hsig
    show ((("user[id]=".data ++ s.data) ++ "&hash=".data) ++ h.data)
        = ("user[id]".data ++ '=' :: s.data) ++ '&' :: ("hash".data ++ '=' :: h.data)
    rw [show "user[id]=".data = "user[id]".data ++ ['='] from rfl,
      show "&hash=".data = '&' :: ("hash".data ++ ['=']) from rfl]
    simp
  · refine verify_initdata_two_field hmacHex _ "user%5Bid%5D".data s h uid ?_
      (by decide) (by decide) (by decide) hsp hsne' hhp hhne' hnum hsig
    show ((("user%5Bid%5D=".data ++ s.data) ++ "&hash=".data) ++ h.data)
        = ("user%5Bid%5D".data ++ '=' :: s.data) ++ '&' :: ("hash".data ++ '=' :: h.data)
    rw [show "user%5Bid%5D=".data = "user%5Bid%5D".data ++ ['='] from rfl,
      show "&hash=".data = '&' :: ("hash".data ++ ['=']) from rfl]
    simp

/-- Witness for `C8_both_user_id_key_forms`: the same signed value `42`
accepted under both key encodings. -/
theorem C8_both_user_id_key_forms_witness :
    verify_initdata (fun _ => "cafe") "user[id]=42&hash=cafe"
      = VerifyResult.ok 42 ∧
    verify_initdata (fun _ => "cafe") "user%5Bid%5D=42&hash=cafe"
      = VerifyResult.ok 42 :=
  C8_both_user_id_key_forms (fun _ => "cafe") "42" "cafe" 42 (by decide) (by decide)
    (by decide) (by decide) (by decide) rfl

/-- C9: a successful-payment event with `invoice_payload = "premium_30d"`
makes exactly one `grant_access` call, with `days = 30`, for the paying
user. -/
theorem C9_premium_30d_grants_30 (st : BotState) (now u : Int) (cid : String) :
    (on_success st now u "premium_30d" cid).2 = [(u, 30)] := by
  have h : strEndsWith "premium_30d" "1d" = false := by decide
  simp [on_success, h]

/-- C10: when the verifier returns the user id `0` (a validly signed
payload embedding `user[id] = 0`), `api_has` answers exactly as for a
verification failure: the unauthorized `(ok=False, 403)` response. -/
theorem C10_zero_uid_unauthorized (hmacHex : String → String) (db : AccessDb)
    (now : Int) (data : String)
    (hv : verify_initdata hmacHex data = VerifyResult.ok 0) :
    api_has hmacHex db now data = ApiHasResult.unauthorized := by
  simp [api_has, hv]

/-- Witness for `C10_zero_uid_unauthorized`: a payload whose `user[id]`
is `0` and whose hash matches. -/
theorem C10_zero_uid_unauthorized_witness :
    api_has (fun _ => "ab") [] 0 "user[id]=0&hash=ab" = ApiHasResult.unauthorized :=
  C10_zero_uid_unauthorized (fun _ => "ab") [] 0 "user[id]=0&hash=ab" (by decide)

end TgBack
